import Mathlib

/-!
Formal model of the Smart StudyMate RAG pipeline (`src/main.py`).

The application is a Streamlit study assistant.  The retrieval pipeline is:
`get_chunks` (text splitting), `get_vector_store` (embed + index build),
`get_rel_text` (similarity retrieval), and the Notes Bot handler that
assembles the prompt and keeps the per-session index in
`st.session_state['notes_db']`.  Authentication is `hash_password`,
`sign_up` and `login` over a sqlite `users` table.

Python strings are modelled as `List Char` where character-level slicing
matters (the chunker) and as `String` elsewhere.  External services
(embedding model, generation model, SHA-256) are modelled as explicit
function parameters, so they are deterministic functions by construction.
-/

namespace StudyMate

/-- Modelled from the spec: error kind for malformed chunker input
(invalid size/overlap configuration), spec section 7 `ChunkingError`. -/
inductive ChunkingError
  | invalidConfig
deriving DecidableEq

/-- Modelled from the spec: one sliding-window step of the chunker
(spec section 4.1).  The window of `size` characters advances by `step`
characters; the final window is whatever text remains.  The actual
splitting algorithm lives in the external `RecursiveCharacterTextSplitter`
library, not in this repository; this model is the character-cut algorithm
the spec describes, with `fuel` bounding the recursion (the caller passes
`text.length`, which always suffices since `step ≥ 1`). -/
def slideWindows (size step : Nat) : Nat → List Char → List (List Char)
  | 0, t => [t]
  | fuel + 1, t =>
    if t.length ≤ size then [t]
    else t.take size :: slideWindows size step fuel (t.drop step)

/-- Modelled from the spec: all windows of the chunker over `t`. -/
def chunkWindows (size step : Nat) (t : List Char) : List (List Char) :=
  slideWindows size step t.length t

/-- Modelled from the spec: `chunk(text, size, overlap)` (spec section 4.1).
Validates `0 < overlap < size` (failing with `ChunkingError`), returns an
empty sequence on empty text, and otherwise slides a window of `size`
characters advancing by `size - overlap`.  `size` and `overlap` are `Int`
since the spec constraint `0 < overlap < size` is over integers. -/
def chunk (text : List Char) (size overlap : Int) :
    Except ChunkingError (List (List Char)) :=
  if overlap ≤ 0 ∨ size ≤ overlap then .error .invalidConfig
  else if text.isEmpty then .ok []
  else .ok (chunkWindows size.toNat (size - overlap).toNat text)

/-- The repository's `get_chunks` (src/main.py lines 105-107): chunking with
the fixed defaults `chunk_size=2000`, `chunk_overlap=200`. -/
def get_chunks (text : List Char) : Except ChunkingError (List (List Char)) :=
  chunk text 2000 200

/-- Removing the defined overlap regions: the first chunk is kept whole and
every later chunk drops its first `ov` characters, then all pieces are
concatenated. -/
def dropOverlaps (ov : Nat) : List (List Char) → List Char
  | [] => []
  | c :: cs => c ++ (cs.map (List.drop ov)).flatten

lemma slideWindows_flatten_drop (size step ov : Nat) (hsum : ov + step = size) :
    ∀ fuel t, ((slideWindows size step fuel t).map (List.drop ov)).flatten = t.drop ov := by
  intro fuel
  induction fuel with
  | zero => intro t; simp [slideWindows]
  | succ n ih =>
    intro t
    by_cases h : t.length ≤ size
    · simp [slideWindows, h]
    · simp only [slideWindows, if_neg h, List.map_cons, List.flatten_cons, ih]
      have e1 : List.drop ov (List.take size t) = List.take step (List.drop ov t) := by
        rw [List.drop_take]
        congr 1
        omega
      have e2 : List.drop ov (List.drop step t) = List.drop step (List.drop ov t) := by
        rw [List.drop_drop, List.drop_drop]
        congr 1
        omega
      rw [e1, e2, List.take_append_drop]

lemma slideWindows_dropOverlaps (size step ov : Nat) (hsum : ov + step = size) :
    ∀ fuel t, dropOverlaps ov (slideWindows size step fuel t) = t := by
  intro fuel t
  cases fuel with
  | zero => simp [slideWindows, dropOverlaps]
  | succ n =>
    by_cases h : t.length ≤ size
    · simp [slideWindows, h, dropOverlaps]
    · simp only [slideWindows, if_neg h, dropOverlaps,
        slideWindows_flatten_drop size step ov hsum]
      rw [List.drop_drop]
      have : step + ov = size := by omega
      rw [this, List.take_append_drop]

lemma slideWindows_ne_nil (size step : Nat) (fuel : Nat) (t : List Char) :
    slideWindows size step fuel t ≠ [] := by
  cases fuel with
  | zero => simp [slideWindows]
  | succ n =>
    by_cases h : t.length ≤ size <;> simp [slideWindows, h]

lemma slideWindows_head_take (size step ov : Nat) (hov : ov ≤ size)
    (fuel : Nat) (t : List Char) :
    ∀ b ∈ (slideWindows size step fuel t).head?, b.take ov = t.take ov := by
  intro b hb
  cases fuel with
  | zero => simp [slideWindows] at hb; simp [hb]
  | succ n =>
    by_cases h : t.length ≤ size
    · simp [slideWindows, h] at hb; simp [hb]
    · simp [slideWindows, h] at hb
      subst hb
      rw [List.take_take, min_eq_left hov]

lemma slideWindows_chain (size step ov : Nat) (hsum : ov + step = size) :
    ∀ fuel t, List.Chain' (fun a b => a.drop step = b.take ov)
      (slideWindows size step fuel t) := by
  intro fuel
  induction fuel with
  | zero => intro t; simp [slideWindows]
  | succ n ih =>
    intro t
    by_cases h : t.length ≤ size
    · simp [slideWindows, h]
    · simp only [slideWindows, if_neg h]
      rw [List.chain'_cons']
      refine ⟨fun b hb => ?_, ih (t.drop step)⟩
      have hov : ov ≤ size := by omega
      rw [slideWindows_head_take size step ov hov n (t.drop step) b hb]
      rw [List.drop_take]
      have : size - step = ov := by omega
      rw [this]

lemma slideWindows_dropLast_length (size step : Nat) :
    ∀ fuel t, ∀ c ∈ (slideWindows size step fuel t).dropLast, c.length = size := by
  intro fuel
  induction fuel with
  | zero => intro t c hc; simp [slideWindows] at hc
  | succ n ih =>
    intro t c hc
    by_cases h : t.length ≤ size
    · simp [slideWindows, h] at hc
    · simp only [slideWindows, if_neg h] at hc
      rw [List.dropLast_cons_of_ne_nil (slideWindows_ne_nil size step n (t.drop step))]
        at hc
      rcases List.mem_cons.mp hc with h1 | h1
      · subst h1
        rw [List.length_take]
        omega
      · exact ih (t.drop step) c h1

lemma chunk_valid_reconstruct (text : List Char) (size overlap : Int)
    (cs : List (List Char)) (h1 : 0 < overlap) (h2 : overlap < size)
    (hok : chunk text size overlap = .ok cs) :
    dropOverlaps overlap.toNat cs = text := by
  have hvalid : ¬(overlap ≤ 0 ∨ size ≤ overlap) := by omega
  rw [chunk, if_neg hvalid] at hok
  by_cases hemp : text.isEmpty
  · rw [if_pos hemp] at hok
    cases hok
    rw [List.isEmpty_iff] at hemp
    simp [dropOverlaps, hemp]
  · rw [if_neg hemp] at hok
    cases hok
    have hsum : overlap.toNat + (size - overlap).toNat = size.toNat := by omega
    exact slideWindows_dropOverlaps size.toNat (size - overlap).toNat overlap.toNat
      hsum text.length text

/-- C1: for every text and every valid configuration `0 < overlap < size`
(in particular the defaults `size = 2000`, `overlap = 200` used by
`get_chunks`), concatenating the chunks with the overlap regions removed
reconstructs the original text exactly — no characters are dropped or
duplicated beyond the overlap regions. -/
theorem chunk_reconstructs_text :
    (∀ (text : List Char) (size overlap : Int) (cs : List (List Char)),
        0 < overlap → overlap < size → chunk text size overlap = .ok cs →
        dropOverlaps overlap.toNat cs = text)
    ∧ (∀ (text : List Char) (cs : List (List Char)),
        get_chunks text = .ok cs → dropOverlaps 200 cs = text) := by
  refine ⟨chunk_valid_reconstruct, fun text cs hok => ?_⟩
  have h := chunk_valid_reconstruct text 2000 200 cs (by omega) (by omega) hok
  simpa using h

/-- Witness for C1 at a concrete input. -/
theorem chunk_reconstructs_text_witness :
    dropOverlaps (2 : Int).toNat ["ABCD".data, "CDE".data] = "ABCDE".data :=
  chunk_reconstructs_text.1 "ABCDE".data 4 2 ["ABCD".data, "CDE".data]
    (by decide) (by decide) rfl

/-- C4: for every text and valid configuration, consecutive chunks overlap
by exactly `overlap` characters — the part of a chunk past the first
`size - overlap` characters equals the next chunk's first `overlap`
characters (the window advances by `size - overlap` each step) — and every
chunk except possibly the final one has length exactly `size`; in
particular `chunk("ABCDEFGHIJ", size=4, overlap=2)` returns exactly
`["ABCD", "CDEF", "EFGH", "GHIJ"]`. -/
theorem chunk_overlap_invariant :
    (∀ (text : List Char) (size overlap : Int) (cs : List (List Char)),
        0 < overlap → overlap < size → chunk text size overlap = .ok cs →
        List.Chain' (fun a b => a.drop (size - overlap).toNat = b.take overlap.toNat) cs
        ∧ ∀ c ∈ cs.dropLast, c.length = size.toNat)
    ∧ chunk "ABCDEFGHIJ".data 4 2
        = .ok ["ABCD".data, "CDEF".data, "EFGH".data, "GHIJ".data] := by
  refine ⟨fun text size overlap cs h1 h2 hok => ?_, rfl⟩
  have hvalid : ¬(overlap ≤ 0 ∨ size ≤ overlap) := by omega
  rw [chunk, if_neg hvalid] at hok
  by_cases hemp : text.isEmpty
  · rw [if_pos hemp] at hok
    cases hok
    simp
  · rw [if_neg hemp] at hok
    cases hok
    have hsum : overlap.toNat + (size - overlap).toNat = size.toNat := by omega
    exact ⟨slideWindows_chain size.toNat (size - overlap).toNat overlap.toNat hsum
        text.length text,
      slideWindows_dropLast_length size.toNat (size - overlap).toNat text.length text⟩

/-- Witness for C4 at a concrete input. -/
theorem chunk_overlap_invariant_witness :
    List.Chain' (fun a b => a.drop ((4 : Int) - 2).toNat = b.take (2 : Int).toNat)
      ["ABCD".data, "CDE".data]
    ∧ ∀ c ∈ (["ABCD".data, "CDE".data] : List (List Char)).dropLast,
        c.length = (4 : Int).toNat :=
  chunk_overlap_invariant.1 "ABCDE".data 4 2 ["ABCD".data, "CDE".data]
    (by decide) (by decide) rfl

/-- C6: with a valid configuration, the chunker returns the empty sequence
on the empty text, and a single chunk equal to the whole text whenever the
text is non-empty and shorter than `size`. -/
theorem chunk_empty_and_short_text :
    (∀ size overlap : Int, 0 < overlap → overlap < size →
        chunk [] size overlap = .ok [])
    ∧ (∀ (text : List Char) (size overlap : Int), 0 < overlap → overlap < size →
        text ≠ [] → (text.length : Int) < size →
        chunk text size overlap = .ok [text]) := by
  constructor
  · intro size overlap h1 h2
    have hvalid : ¬(overlap ≤ 0 ∨ size ≤ overlap) := by omega
    rw [chunk, if_neg hvalid]
    rfl
  · intro text size overlap h1 h2 hne hlt
    have hvalid : ¬(overlap ≤ 0 ∨ size ≤ overlap) := by omega
    have hemp : ¬text.isEmpty := by
      rw [List.isEmpty_iff]
      exact hne
    rw [chunk, if_neg hvalid, if_neg hemp]
    rcases List.exists_cons_of_ne_nil hne with ⟨a, l, rfl⟩
    have hlen : (a :: l).length ≤ size.toNat := by omega
    rw [chunkWindows]
    rw [show (a :: l).length = l.length + 1 from rfl]
    rw [slideWindows, if_pos (by simpa using hlen)]

/-- Witness for C6 at concrete inputs. -/
theorem chunk_empty_and_short_text_witness :
    chunk [] 4 2 = .ok [] ∧ chunk "AB".data 4 2 = .ok ["AB".data] :=
  ⟨chunk_empty_and_short_text.1 4 2 (by decide) (by decide),
    chunk_empty_and_short_text.2 "AB".data 4 2 (by decide) (by decide)
      (by decide) (by decide)⟩

/-- C7: for every configuration with `overlap ≥ size` or `overlap ≤ 0`,
the chunker fails with `ChunkingError` (the invalid configuration is
reported, never silently corrected). -/
theorem chunk_invalid_config_error :
    ∀ (text : List Char) (size overlap : Int),
      overlap ≤ 0 ∨ size ≤ overlap →
      chunk text size overlap = .error .invalidConfig := by
  intro text size overlap h
  rw [chunk, if_pos h]

/-- Witness for C7 at concrete inputs. -/
theorem chunk_invalid_config_error_witness :
    chunk "AB".data 4 7 = .error .invalidConfig
    ∧ chunk "AB".data 4 0 = .error .invalidConfig :=
  ⟨chunk_invalid_config_error "AB".data 4 7 (Or.inr (by decide)),
    chunk_invalid_config_error "AB".data 4 0 (Or.inl (by decide))⟩

/-- Modelled from the spec: an embedding vector — a fixed-dimension numeric
vector, kept abstract as a list of integers (the system only ever compares
vectors through a similarity function). -/
abbrev Vec := List Int

/-- Modelled from the spec: the error kind raised when an embedding call
fails (spec section 7 `EmbeddingServiceError`). -/
inductive EmbeddingServiceError
  | embedFailed
deriving DecidableEq

/-- Modelled from the spec: an Index is a collection of (chunk, vector)
pairs in insertion order, scoped to one processed document per session. -/
structure Index where
  entries : List (String × Vec)
deriving DecidableEq

/-- Modelled from the spec: embed every chunk in order through the
(fallible) Embedding Service; the first failure aborts the build with the
service's error and no pair list is produced (all-or-nothing). -/
def buildEntries (embed : String → Except EmbeddingServiceError Vec) :
    List String → Except EmbeddingServiceError (List (String × Vec))
  | [] => .ok []
  | c :: cs =>
    match embed c with
    | .error e => .error e
    | .ok v =>
      match buildEntries embed cs with
      | .error e => .error e
      | .ok rest => .ok ((c, v) :: rest)

/-- The repository's `get_vector_store` (src/main.py lines 109-110): builds
the FAISS index from the chunk texts.  The FAISS/embedding internals are
external; the build is modelled from the spec's `build` contract. -/
def get_vector_store (embed : String → Except EmbeddingServiceError Vec)
    (chunks : List String) : Except EmbeddingServiceError Index :=
  (buildEntries embed chunks).map Index.mk

/-- Every stored chunk paired with its similarity score against the query
vector, in insertion order. -/
def scoreAll (sim : Vec → Vec → Int) (qv : Vec) (db : Index) :
    List (String × Int) :=
  db.entries.map (fun e => (e.1, sim qv e.2))

/-- Descending-score order on scored chunks (highest similarity first). -/
def scoreDesc : (String × Int) → (String × Int) → Prop :=
  fun a b => b.2 ≤ a.2

instance : DecidableRel scoreDesc :=
  fun a b => inferInstanceAs (Decidable (b.2 ≤ a.2))

instance : IsTotal (String × Int) scoreDesc :=
  ⟨fun a b => le_total b.2 a.2⟩

instance : IsTrans (String × Int) scoreDesc :=
  ⟨fun _ _ _ hab hbc => le_trans hbc hab⟩

/-- Modelled from the spec: `search(index, query_vector, k)` returns the
`k` stored pairs with highest similarity score, descending by score, ties
broken by insertion order (insertion sort is stable).  The similarity
metric itself is an abstract parameter `sim` (cosine or an equivalent
monotone transform, computed by FAISS externally). -/
def similarity_search (sim : Vec → Vec → Int) (db : Index) (qv : Vec)
    (k : Nat) : List (String × Int) :=
  (List.insertionSort scoreDesc (scoreAll sim qv db)).take k

/-- The repository's `get_rel_text` (src/main.py lines 112-114): embeds the
query, runs `similarity_search` with `k = 3`, and keeps only the chunk
texts (scores dropped).  The query-time embedding is the abstract function
`embed`. -/
def get_rel_text (sim : Vec → Vec → Int) (embed : String → Vec)
    (query : String) (db : Index) : List String :=
  (similarity_search sim db (embed query) 3).map Prod.fst

/-- The Process File handler (src/main.py lines 251-258): chunks are
embedded and indexed, and on success the session state `notes_db` is set to
the new index; when the build raises, the assignment never runs, so the
session state, modelled as `Option Index`, is left as it was and the error
surfaces to the caller. -/
def processFile (embed : String → Except EmbeddingServiceError Vec)
    (chunks : List String) (s : Option Index) :
    Option Index × Option EmbeddingServiceError :=
  match get_vector_store embed chunks with
  | .ok idx => (some idx, none)
  | .error e => (s, some e)

/-- C2 counterexample: a session that already holds a built index and then
runs a failing build still holds that (stale) index afterwards — the claim
that after a failed build the session holds no built index is false.  The
handler only ever assigns `notes_db` after a successful build, so the
previous value survives the failure. -/
theorem processFile_failure_keeps_stale_index :
    get_vector_store (fun _ => .error .embedFailed) ["a"] = .error .embedFailed
    ∧ (processFile (fun _ => .error .embedFailed) ["a"]
        (some ⟨[("x", [1])]⟩)).1 = some ⟨[("x", [1])]⟩
    ∧ (processFile (fun _ => .error .embedFailed) ["a"]
        (some ⟨[("x", [1])]⟩)).1 ≠ none :=
  ⟨rfl, rfl, by decide⟩

/-- C2 amended: if any embedding call fails during an index build, the
error propagates as `EmbeddingServiceError` and no index from the failed
build is stored: the session's index state is left exactly as it was — in
particular a session that had no built index still has none (no partial
index), while a previously built index is retained rather than cleared.
On success the new index replaces the state. -/
theorem processFile_all_or_nothing :
    (∀ embed chunks (s : Option Index) e,
        get_vector_store embed chunks = .error e →
        processFile embed chunks s = (s, some e))
    ∧ (∀ embed chunks e,
        get_vector_store embed chunks = .error e →
        (processFile embed chunks none).1 = none)
    ∧ (∀ embed chunks (s : Option Index) idx,
        get_vector_store embed chunks = .ok idx →
        processFile embed chunks s = (some idx, none)) := by
  refine ⟨fun embed chunks s e h => ?_, fun embed chunks e h => ?_,
    fun embed chunks s idx h => ?_⟩
  · rw [processFile, h]
  · rw [processFile, h]
  · rw [processFile, h]

/-- Witness for C2's amended theorem at concrete inputs. -/
theorem processFile_all_or_nothing_witness :
    processFile (fun _ => .error .embedFailed) ["a"] none
      = (none, some .embedFailed)
    ∧ processFile (fun _ => .ok [7]) ["a"] none
      = (some ⟨[("a", [7])]⟩, none) :=
  ⟨processFile_all_or_nothing.1 (fun _ => .error .embedFailed) ["a"] none
      .embedFailed rfl,
    processFile_all_or_nothing.2.2 (fun _ => .ok [7]) ["a"] none
      ⟨[("a", [7])]⟩ rfl⟩

/-- C3: for every built index and query, the retriever embeds the query,
runs the similarity search with `k = 3`, and returns exactly the chunk
texts of the highest-scoring stored chunks in descending-score order with
scores dropped: the search output is sorted descending by score, has
length `min k N`, and splits the stored chunks into the returned ones and
dropped ones whose scores are all no higher; when the index holds `N ≤ k`
chunks the retriever returns all `N` chunk texts, each exactly once (a
permutation of the stored chunk texts), in descending-score order. -/
theorem get_rel_text_top_k :
    (∀ sim (db : Index) qv k,
        List.Sorted scoreDesc (similarity_search sim db qv k)
        ∧ (similarity_search sim db qv k).length = min k db.entries.length
        ∧ ∃ dropped,
            (similarity_search sim db qv k ++ dropped).Perm (scoreAll sim qv db)
            ∧ ∀ a ∈ similarity_search sim db qv k, ∀ b ∈ dropped, b.2 ≤ a.2)
    ∧ (∀ sim embed q db,
        get_rel_text sim embed q db
          = (similarity_search sim db (embed q) 3).map Prod.fst)
    ∧ (∀ sim embed q (db : Index), db.entries.length ≤ 3 →
        (get_rel_text sim embed q db).Perm (db.entries.map Prod.fst)) := by
  refine ⟨fun sim db qv k => ⟨?_, ?_, ?_⟩, fun sim embed q db => rfl,
    fun sim embed q db hN => ?_⟩
  · exact List.Pairwise.sublist (List.take_sublist k _)
      (List.sorted_insertionSort scoreDesc (scoreAll sim qv db))
  · rw [similarity_search, List.length_take, List.length_insertionSort,
      scoreAll, List.length_map]
  · refine ⟨(List.insertionSort scoreDesc (scoreAll sim qv db)).drop k, ?_, ?_⟩
    · rw [similarity_search, List.take_append_drop]
      exact List.perm_insertionSort scoreDesc (scoreAll sim qv db)
    · have hp : List.Pairwise scoreDesc
          ((List.insertionSort scoreDesc (scoreAll sim qv db)).take k
            ++ (List.insertionSort scoreDesc (scoreAll sim qv db)).drop k) := by
        rw [List.take_append_drop]
        exact List.sorted_insertionSort scoreDesc (scoreAll sim qv db)
      exact (List.pairwise_append.mp hp).2.2
  · rw [get_rel_text, similarity_search]
    have hlen : (List.insertionSort scoreDesc (scoreAll sim (embed q) db)).length ≤ 3 := by
      rw [List.length_insertionSort, scoreAll, List.length_map]
      exact hN
    rw [List.take_of_length_le hlen]
    have hperm := (List.perm_insertionSort scoreDesc (scoreAll sim (embed q) db)).map
      Prod.fst
    refine hperm.trans ?_
    rw [scoreAll, List.map_map]
    exact List.Perm.refl _

/-- Witness for C3 at a concrete index of two chunks with `k = 3`. -/
theorem get_rel_text_top_k_witness :
    (get_rel_text (fun _ v => v.headD 0) (fun _ => []) "q"
        ⟨[("a", [5]), ("b", [9])]⟩).Perm
      ((⟨[("a", [5]), ("b", [9])]⟩ : Index).entries.map Prod.fst) :=
  get_rel_text_top_k.2.2 (fun _ v => v.headD 0) (fun _ => []) "q"
    ⟨[("a", [5]), ("b", [9])]⟩ (by decide)

/-- C8: retrieval is deterministic — two retrievals with identical query
text against the same built index return the identical ranked sequence of
chunks (the embedding and similarity functions are modelled as functions,
hence deterministic). -/
theorem get_rel_text_deterministic :
    ∀ sim embed (q q' : String) (db : Index), q = q' →
      get_rel_text sim embed q db = get_rel_text sim embed q' db := by
  intro sim embed q q' db h
  rw [h]

/-- Witness for C8 at a concrete query and index. -/
theorem get_rel_text_deterministic_witness :
    get_rel_text (fun _ _ => 0) (fun _ => []) "what is RAG"
        ⟨[("a", [1])]⟩
      = get_rel_text (fun _ _ => 0) (fun _ => []) "what is RAG"
        ⟨[("a", [1])]⟩ :=
  get_rel_text_deterministic (fun _ _ => 0) (fun _ => []) "what is RAG"
    "what is RAG" ⟨[("a", [1])]⟩ rfl

/-- The Notes Bot prompt template (src/main.py line 264): the retrieved
chunk texts are joined with a single space into one context block, followed
by the literal question, followed by the tutoring instruction. -/
def composePrompt (rel_texts : List String) (q : String) : String :=
  "Context: " ++ String.intercalate " " rel_texts
    ++ "\n\nQuestion: " ++ q ++ "\nAnswer as a tutor:"

/-- The Notes Bot answer step (src/main.py lines 264-266): the prompt is
sent to the text-generation service, modelled as the abstract function
`gen`, and the service's response is returned verbatim. -/
def compose_answer (gen : String → String) (rel_texts : List String)
    (q : String) : String :=
  gen (composePrompt rel_texts q)

/-- C5: the answer composer joins the context chunks in the given order
with a single space separator into one context block, follows it with the
literal question and then the tutoring-style instruction, and returns the
generation service's response to that prompt verbatim; in particular for
the single chunk "Paris is the capital of France." and the question
"What is the capital of France?" the prompt contains both, in the fixed
template. -/
theorem compose_answer_template :
    (∀ gen (rel_texts : List String) q,
        compose_answer gen rel_texts q = gen (composePrompt rel_texts q))
    ∧ (∀ (rel_texts : List String) q,
        (composePrompt rel_texts q).data
          = "Context: ".data ++ (String.intercalate " " rel_texts).data
            ++ "\n\nQuestion: ".data ++ q.data ++ "\nAnswer as a tutor:".data)
    ∧ composePrompt ["Paris is the capital of France."]
        "What is the capital of France?"
        = "Context: Paris is the capital of France.\n\nQuestion: What is the capital of France?\nAnswer as a tutor:" := by
  refine ⟨fun gen rel_texts q => rfl, fun rel_texts q => ?_, rfl⟩
  simp [composePrompt]

/-- The events that change the Notes Bot session's index state
(src/main.py lines 251-258): a Process File click that builds successfully
stores the new index; a failed build leaves the state unchanged. -/
inductive NotesEvent
  | processSuccess (idx : Index)
  | processFailure

/-- One state transition of the Notes Bot session's `notes_db` slot. -/
def notesStateStep (s : Option Index) : NotesEvent → Option Index
  | .processSuccess idx => some idx
  | .processFailure => s

/-- The session's `notes_db` slot after a sequence of events, starting from
a fresh session with no index. -/
def runNotes (events : List NotesEvent) : Option Index :=
  events.foldl notesStateStep none

/-- The Notes Bot query handler (src/main.py lines 260-263): the chat input
is offered, and retrieval executed, only under the guard
`"notes_db" in st.session_state`; with no index the handler does nothing. -/
def notesQuery (sim : Vec → Vec → Int) (embed : String → Vec)
    (s : Option Index) (q : String) : Option (List String) :=
  match s with
  | none => none
  | some db => some (get_rel_text sim embed q db)

lemma foldl_notesStateStep_mem :
    ∀ (events : List NotesEvent) (s : Option Index) (idx : Index),
      events.foldl notesStateStep s = some idx →
      NotesEvent.processSuccess idx ∈ events ∨ s = some idx := by
  intro events
  induction events with
  | nil => exact fun s idx h => Or.inr h
  | cons e rest ih =>
    intro s idx h
    rcases ih (notesStateStep s e) idx h with h1 | h1
    · exact Or.inl (List.mem_cons_of_mem e h1)
    · cases e with
      | processSuccess j =>
        injection h1 with h2
        subst h2
        exact Or.inl (List.mem_cons_self _ _)
      | processFailure => exact Or.inr h1

/-- C9: retrieval is never invoked on a session without a built index: the
query handler returns nothing (offers no retrieval) when the session state
holds no index, any retrieval it does perform is against the index the
state holds, and any index a reachable session state holds was produced by
a successful Process File build. -/
theorem notes_query_requires_index :
    (∀ sim embed q, notesQuery sim embed none q = none)
    ∧ (∀ sim embed (s : Option Index) q r, notesQuery sim embed s q = some r →
        ∃ db, s = some db ∧ r = get_rel_text sim embed q db)
    ∧ (∀ events idx, runNotes events = some idx →
        NotesEvent.processSuccess idx ∈ events) := by
  refine ⟨fun sim embed q => rfl, fun sim embed s q r h => ?_,
    fun events idx h => ?_⟩
  · cases s with
    | none => cases h
    | some db =>
      injection h with h1
      exact ⟨db, rfl, h1.symm⟩
  · rcases foldl_notesStateStep_mem events none idx h with h1 | h1
    · exact h1
    · cases h1

/-- Witness for C9 at a concrete event trace. -/
theorem notes_query_requires_index_witness :
    NotesEvent.processSuccess (⟨[]⟩ : Index)
      ∈ [NotesEvent.processFailure, NotesEvent.processSuccess ⟨[]⟩] :=
  notes_query_requires_index.2.2
    [NotesEvent.processFailure, NotesEvent.processSuccess ⟨[]⟩] ⟨[]⟩ rfl

/-- A row of the sqlite `users` table (src/main.py lines 43-51): the
`password` column stores the SHA-256 hex digest, `email` is UNIQUE, and
`user_id` autoincrements. -/
structure UserRow where
  user_id : Nat
  first_name : String
  last_name : String
  email : String
  password : String
deriving DecidableEq

/-- The repository's `hash_password` (src/main.py lines 63-64).  The
external `hashlib.sha256(...).hexdigest()` is modelled as the abstract
deterministic function `sha256hex`. -/
def hash_password (sha256hex : String → String) (password : String) : String :=
  sha256hex password

/-- The next autoincrement id for an insert into `users`. -/
def nextId (db : List UserRow) : Nat :=
  (db.map (fun r => r.user_id)).foldr max 0 + 1

/-- The repository's `sign_up` (src/main.py lines 66-76): inserts the new
user with the hashed password; the UNIQUE constraint on `email` makes the
insert fail (`IntegrityError`) when the email is already registered, in
which case the table is unchanged. -/
def sign_up (sha256hex : String → String) (db : List UserRow)
    (first_name last_name email password : String) : List UserRow × Bool :=
  if db.any (fun r => r.email == email) then (db, false)
  else (db ++ [⟨nextId db, first_name, last_name, email,
    hash_password sha256hex password⟩], true)

/-- The repository's `login` (src/main.py lines 78-83): selects
`(user_id, first_name, last_name)` of the first stored row whose email
matches and whose stored password hash equals the hash of the supplied
password. -/
def login (sha256hex : String → String) (db : List UserRow)
    (email password : String) : Option (Nat × String × String) :=
  (db.find? (fun r =>
      r.email == email && r.password == hash_password sha256hex password)).map
    (fun r => (r.user_id, r.first_name, r.last_name))

/-- C10: a successful `sign_up` followed by `login` with the same
credentials round-trips, returning the new user's
`(user_id, first_name, last_name)`; and `login` succeeds exactly when some
stored row's email matches and its stored password hash equals the hash of
the supplied password. -/
theorem signup_login_roundtrip :
    (∀ sha256hex db first_name last_name email password,
        (∀ r ∈ db, r.email ≠ email) →
        login sha256hex (sign_up sha256hex db first_name last_name email
            password).1 email password
          = some (nextId db, first_name, last_name))
    ∧ (∀ sha256hex db email password,
        (login sha256hex db email password).isSome
          ↔ ∃ r ∈ db, r.email = email
              ∧ r.password = hash_password sha256hex password) := by
  constructor
  · intro sha256hex db first_name last_name email password hfresh
    have hany : db.any (fun r => r.email == email) = false := by
      rw [List.any_eq_false]
      intro r hr
      simpa using hfresh r hr
    rw [sign_up, if_neg (by rw [hany]; exact Bool.false_ne_true)]
    rw [login, List.find?_append]
    have hnone : db.find? (fun r =>
        r.email == email
          && r.password == hash_password sha256hex password) = none := by
      rw [List.find?_eq_none]
      intro r hr
      have := hfresh r hr
      simp [this]
    rw [hnone]
    simp [List.find?]
  · intro sha256hex db email password
    rw [login]
    rw [Option.isSome_map']
    rw [List.find?_isSome]
    constructor
    · rintro ⟨r, hr, hp⟩
      rw [Bool.and_eq_true, beq_iff_eq, beq_iff_eq] at hp
      exact ⟨r, hr, hp.1, hp.2⟩
    · rintro ⟨r, hr, h1, h2⟩
      exact ⟨r, hr, by rw [Bool.and_eq_true, beq_iff_eq, beq_iff_eq]; exact ⟨h1, h2⟩⟩

/-- Witness for C10 at concrete credentials (with a concrete stand-in for
the hash function). -/
theorem signup_login_roundtrip_witness :
    login (fun s => s ++ "#") (sign_up (fun s => s ++ "#") [] "Ada" "L"
        "ada@mail" "pw").1 "ada@mail" "pw"
      = some (1, "Ada", "L") :=
  signup_login_roundtrip.1 (fun s => s ++ "#") [] "Ada" "L" "ada@mail" "pw"
    (by simp)

end StudyMate
